import Mathlib

/-!
Verification of the roma trading core: risk-bounded order sizing, the open-position
ledger with realized P&L, the equity/cash-flow reconciler, the trading-cycle
admission gate, and the agent worker loop.  All monetary arithmetic is embedded
over `ℚ`; functions are transcribed from
`roma_trading/agents/trading_agent.py`, `roma_trading/core/decision_logger.py`,
`roma_trading/services/trade_execution_service.py` and
`roma_trading/agents/scheduler.py`.
-/

/-- An exchange position as consumed by the sizing code
(`dex.get_positions()` entries: `position_amt`, `entry_price`, `leverage`). -/
structure Position where
  symbol : String
  side : String
  positionAmt : ℚ
  entryPrice : ℚ
  leverage : ℚ
deriving DecidableEq

/-- Risk configuration used by `_execute_open_long` / `_execute_open_short`
(config defaults 50, 30, 80). -/
structure RiskConfig where
  maxSingleTradePct : ℚ
  maxSingleTradeWithPositionsPct : ℚ
  maxTotalPositionPct : ℚ
deriving DecidableEq

/-- `sum(abs(p['position_amt']) * p['entry_price'] / p['leverage'] for p in positions)`. -/
def totalMarginUsed (positions : List Position) : ℚ :=
  (positions.map (fun p => |p.positionAmt| * p.entryPrice / p.leverage)).sum

/-- Single-trade percentage selection: the conservative
`max_single_trade_with_positions_pct` when `positions` is non-empty, else
`max_single_trade_pct`. -/
def selectMaxTradePct (risk : RiskConfig) (positions : List Position) : ℚ :=
  if positions.isEmpty then risk.maxSingleTradePct else risk.maxSingleTradeWithPositionsPct

/-- `max_trade_amount = available * (max_trade_pct / 100)`. -/
def singleTradeCapAmount (risk : RiskConfig) (positions : List Position) (available : ℚ) : ℚ :=
  available * (selectMaxTradePct risk positions / 100)

/-- Step 1 clamp: `if position_size_usd > max_trade_amount: position_size_usd = max_trade_amount`. -/
def clampSingle (requested maxTradeAmount : ℚ) : ℚ :=
  if requested > maxTradeAmount then maxTradeAmount else requested

/-- Step 2 total-position check: over the limit with less than 0.1 USD of
headroom aborts (`none`), over the limit otherwise clamps to the remaining
headroom, and within the limit passes the margin through. -/
def clampTotal (used maxTotalMargin m : ℚ) : Option ℚ :=
  if used + m > maxTotalMargin then
    if maxTotalMargin - used < 1/10 then none
    else some (maxTotalMargin - used)
  else some m

/-- `max_total_margin = account['total_wallet_balance'] * (max_total_pct / 100)`. -/
def maxTotalMarginOf (risk : RiskConfig) (totalWalletBalance : ℚ) : ℚ :=
  totalWalletBalance * (risk.maxTotalPositionPct / 100)

/-- Margin surviving both cap checks (steps 1 and 2 of the sizing algorithm). -/
def marginAfterCaps (risk : RiskConfig) (available totalWalletBalance : ℚ)
    (positions : List Position) (requested : ℚ) : Option ℚ :=
  clampTotal (totalMarginUsed positions) (maxTotalMarginOf risk totalWalletBalance)
    (clampSingle requested (singleTradeCapAmount risk positions available))

/-- Round-half-to-even on rationals, the idealization of Python `round` on an
exact value. -/
def roundHalfEven (x : ℚ) : ℤ :=
  let n := ⌊x⌋
  let frac := x - n
  if frac < 1/2 then n
  else if 1/2 < frac then n + 1
  else if n % 2 = 0 then n else n + 1

/-- Python `round(x, 3)`. -/
def pythonRound3 (x : ℚ) : ℚ :=
  (roundHalfEven (x * 1000) : ℚ) / 1000

/-- Step 5 of sizing: apply the 5% downward formatting buffer, re-derive the
required margin, abort when it exceeds the available balance, and otherwise
return `(margin, quantity)` as submitted to the exchange. -/
def finalizeOpen (available leverage price margin quantity : ℚ) : Option (ℚ × ℚ) :=
  let estimatedFormattedQty := pythonRound3 (quantity * (19/20))
  let requiredMargin := estimatedFormattedQty * price / leverage
  if requiredMargin > available then none else some (margin, quantity)

/-- Open-order sizing transcribed from `_execute_open_long` (the short path is
verbatim identical): cap clamps, total-position clamp, quantity derivation,
the minimum-quantity floor with its affordability and single-trade-limit
aborts, and the final formatting-buffer check.  Returns the `(margin,
quantity)` pair submitted to the exchange, or `none` when the decision is
skipped. -/
def sizeOpenOrder (risk : RiskConfig) (available totalWalletBalance : ℚ)
    (positions : List Position) (leverage price requested : ℚ) : Option (ℚ × ℚ) :=
  match marginAfterCaps risk available totalWalletBalance positions requested with
  | none => none
  | some m2 =>
    let quantity0 := m2 * leverage / price
    if quantity0 < 1/1000 then
      let minQuantity : ℚ := 1/1000
      let minMarginNeeded := minQuantity * price / leverage
      if minMarginNeeded > available then none
      else if minMarginNeeded > singleTradeCapAmount risk positions available then none
      else finalizeOpen available leverage price minMarginNeeded minQuantity
    else finalizeOpen available leverage price m2 quantity0

lemma clampSingle_eq_min (r b : ℚ) : clampSingle r b = min r b := by
  unfold clampSingle
  split
  · next h => exact (min_eq_right (le_of_lt h)).symm
  · next h => exact (min_eq_left (le_of_not_lt h)).symm

lemma clampSingle_le_bound (r b : ℚ) : clampSingle r b ≤ b := by
  unfold clampSingle
  split
  · exact le_rfl
  · next h => exact le_of_not_lt h

lemma clampTotal_le (used maxT m m2 : ℚ) (h : clampTotal used maxT m = some m2) :
    m2 ≤ m := by
  unfold clampTotal at h
  split at h
  · next hover =>
    split at h
    · exact absurd h (by simp)
    · injection h with h
      linarith
  · injection h with h
    exact h ▸ le_rfl

lemma clampTotal_total_le (used maxT m m2 : ℚ) (h : clampTotal used maxT m = some m2) :
    used + m2 ≤ maxT := by
  unfold clampTotal at h
  split at h
  · split at h
    · exact absurd h (by simp)
    · injection h with h
      linarith
  · next hover =>
    injection h with h
    have := le_of_not_lt hover
    linarith

lemma finalizeOpen_margin (available leverage price margin quantity m q : ℚ)
    (h : finalizeOpen available leverage price margin quantity = some (m, q)) :
    m = margin ∧ q = quantity := by
  unfold finalizeOpen at h
  dsimp only at h
  split at h
  · exact absurd h (by simp)
  · injection h with h
    exact ⟨(congrArg Prod.fst h).symm, (congrArg Prod.snd h).symm⟩

/-- Claim C1: for every open-order sizing, the single-trade cap is the
with-positions percentage when the positions list is non-empty and the plain
percentage when it is empty; a requested margin above `availableBalance ×
cap/100` is clamped to that bound rather than rejected; the minimum-quantity
branch aborts when the floor margin exceeds the bound or the available
balance; hence any submitted margin is at most `availableBalance × cap/100`,
and the submitted quantity corresponds exactly to that margin. -/
theorem C1_single_trade_cap (risk : RiskConfig) (available totalWalletBalance : ℚ)
    (positions : List Position) (leverage price requested m q : ℚ)
    (h : sizeOpenOrder risk available totalWalletBalance positions leverage price requested
        = some (m, q)) :
    m ≤ singleTradeCapAmount risk positions available
    ∧ clampSingle requested (singleTradeCapAmount risk positions available)
        = min requested (singleTradeCapAmount risk positions available)
    ∧ (price ≠ 0 → leverage ≠ 0 → q * price / leverage = m) := by
  unfold sizeOpenOrder at h
  cases hcaps : marginAfterCaps risk available totalWalletBalance positions requested with
  | none => rw [hcaps] at h; exact absurd h (by simp)
  | some m2 =>
    rw [hcaps] at h
    dsimp only at h
    unfold marginAfterCaps at hcaps
    have hm2 : m2 ≤ singleTradeCapAmount risk positions available :=
      le_trans (clampTotal_le _ _ _ _ hcaps) (clampSingle_le_bound _ _)
    refine ⟨?_, clampSingle_eq_min _ _, ?_⟩ <;> split at h
    · next =>
      split at h
      · exact absurd h (by simp)
      · split at h
        · exact absurd h (by simp)
        · next hmm hav hcap =>
          obtain ⟨hm, hq⟩ := finalizeOpen_margin _ _ _ _ _ _ _ h
          exact hm ▸ le_of_not_lt hcap
    · next =>
      obtain ⟨hm, hq⟩ := finalizeOpen_margin _ _ _ _ _ _ _ h
      exact hm ▸ hm2
    · next =>
      split at h
      · exact absurd h (by simp)
      · split at h
        · exact absurd h (by simp)
        · intro hp hl
          obtain ⟨hm, hq⟩ := finalizeOpen_margin _ _ _ _ _ _ _ h
          rw [hm, hq]
    · next =>
      intro hp hl
      obtain ⟨hm, hq⟩ := finalizeOpen_margin _ _ _ _ _ _ _ h
      rw [hm, hq]
      field_simp

/-- Witness for C1 at Scenario A: available 1000, no positions,
maxSingleTradePct 50, requested 800, leverage 10, price 50000: the order is
placed with margin 500, which respects the 50% cap. -/
theorem C1_single_trade_cap_witness :
    sizeOpenOrder ⟨50, 30, 80⟩ 1000 10000 [] 10 50000 800 = some (500, 1/10)
    ∧ (500 : ℚ) ≤ singleTradeCapAmount ⟨50, 30, 80⟩ [] 1000 := by
  have h : sizeOpenOrder ⟨50, 30, 80⟩ 1000 10000 [] 10 50000 800 = some (500, 1/10) := by
    norm_num [sizeOpenOrder, marginAfterCaps, clampTotal, clampSingle, singleTradeCapAmount,
      selectMaxTradePct, totalMarginUsed, maxTotalMarginOf, finalizeOpen, pythonRound3,
      roundHalfEven]
  exact ⟨h, (C1_single_trade_cap ⟨50, 30, 80⟩ 1000 10000 [] 10 50000 800 500 (1/10) h).1⟩

/-- Counterexample to Claim C2: when the total-position clamp leaves only 0.2
USD of headroom but the minimum-quantity floor then raises the margin to 5
USD, the order is still placed and the total-position cap is exceeded by more
than any reasonable ε (wallet 100, cap 80%, margin already used 79.8, final
total 84.8). -/
theorem C2_total_position_cap_counterexample :
    sizeOpenOrder ⟨50, 30, 80⟩ 20 100 [⟨"ETHUSDT", "long", 399/50, 10, 1⟩] 10 50000 10
      = some (5, 1/1000)
    ∧ totalMarginUsed [⟨"ETHUSDT", "long", 399/50, 10, 1⟩] + 5
        > maxTotalMarginOf ⟨50, 30, 80⟩ 100 + 1/10 := by
  have habs : |(399/50 : ℚ)| = 399/50 := abs_of_nonneg (by norm_num)
  constructor
  · norm_num [sizeOpenOrder, marginAfterCaps, clampTotal, clampSingle, singleTradeCapAmount,
      selectMaxTradePct, totalMarginUsed, maxTotalMarginOf, finalizeOpen, pythonRound3,
      roundHalfEven, habs]
  · norm_num [totalMarginUsed, maxTotalMarginOf, habs]

/-- Claim C2 (amended): over-limit requests with less than 0.1 USD of headroom
abort and otherwise clamp to the remaining headroom, and the total-position
bound `totalMarginUsed + approvedMargin ≤ totalWalletBalance ×
maxTotalPositionPct/100` holds for every placed order whose margin was not
raised by the minimum-quantity floor. -/
theorem C2_total_position_cap (risk : RiskConfig) (available totalWalletBalance : ℚ)
    (positions : List Position) (leverage price requested m q m2 : ℚ)
    (hm2 : marginAfterCaps risk available totalWalletBalance positions requested = some m2)
    (hq0 : ¬ (m2 * leverage / price < 1/1000))
    (h : sizeOpenOrder risk available totalWalletBalance positions leverage price requested
        = some (m, q)) :
    totalMarginUsed positions + m ≤ maxTotalMarginOf risk totalWalletBalance
    ∧ (∀ used maxT r, used + r > maxT → maxT - used < 1/10 →
        clampTotal used maxT r = none)
    ∧ (∀ used maxT r, used + r > maxT → ¬(maxT - used < 1/10) →
        clampTotal used maxT r = some (maxT - used)) := by
  refine ⟨?_, ?_, ?_⟩
  · unfold sizeOpenOrder at h
    rw [hm2] at h
    dsimp only at h
    rw [if_neg hq0] at h
    obtain ⟨hm, hq⟩ := finalizeOpen_margin _ _ _ _ _ _ _ h
    unfold marginAfterCaps at hm2
    exact hm ▸ clampTotal_total_le _ _ _ _ hm2
  · intro used maxT r hover hsmall
    unfold clampTotal
    rw [if_pos hover, if_pos hsmall]
  · intro used maxT r hover hsmall
    unfold clampTotal
    rw [if_pos hover, if_neg hsmall]

/-- Witness for the amended C2 at Scenario A inputs: with no positions and a
clamped margin of 500 on a 10000 wallet, the 80% total-position bound holds. -/
theorem C2_total_position_cap_witness :
    totalMarginUsed [] + 500 ≤ maxTotalMarginOf ⟨50, 30, 80⟩ 10000 := by
  have hm2 : marginAfterCaps ⟨50, 30, 80⟩ 1000 10000 [] 800 = some 500 := by
    norm_num [marginAfterCaps, clampTotal, clampSingle, singleTradeCapAmount,
      selectMaxTradePct, totalMarginUsed, maxTotalMarginOf]
  have h : sizeOpenOrder ⟨50, 30, 80⟩ 1000 10000 [] 10 50000 800 = some (500, 1/10) := by
    norm_num [sizeOpenOrder, marginAfterCaps, clampTotal, clampSingle, singleTradeCapAmount,
      selectMaxTradePct, totalMarginUsed, maxTotalMarginOf, finalizeOpen, pythonRound3,
      roundHalfEven]
  exact (C2_total_position_cap ⟨50, 30, 80⟩ 1000 10000 [] 10 50000 800 500 (1/10) 500
    hm2 (by norm_num) h).1

/-- An `open_positions` ledger entry: `entry_price`, `quantity`, `leverage`
tracked by this process for one `(symbol, side)` pair. -/
structure OpenPos where
  symbol : String
  side : String
  entryPrice : ℚ
  quantity : ℚ
  leverage : ℚ
deriving DecidableEq

/-- A completed-trade record as produced by `record_close_position`
(timestamps omitted). -/
structure TradeRec where
  symbol : String
  side : String
  entryPrice : ℚ
  closePrice : ℚ
  quantity : ℚ
  leverage : ℚ
  pnlPct : ℚ
  pnlUsdt : ℚ
deriving DecidableEq

/-- The in-memory `open_positions` dict, keyed by `"symbol_side"`. -/
abbrev Ledger := List (String × OpenPos)

/-- `key = f"{symbol}_{side}"`. -/
def posKey (symbol side : String) : String :=
  symbol ++ "_" ++ side

def ledgerLookup : Ledger → String → Option OpenPos
  | [], _ => none
  | (k, v) :: rest, key => if k = key then some v else ledgerLookup rest key

/-- Dict assignment `open_positions[key] = v`: replace an existing binding or
append a new one. -/
def ledgerInsert : Ledger → String → OpenPos → Ledger
  | [], key, v => [(key, v)]
  | (k, w) :: rest, key, v =>
    if k = key then (key, v) :: rest else (k, w) :: ledgerInsert rest key v

/-- `open_positions.pop(key, None)`. -/
def ledgerRemove : Ledger → String → Ledger
  | [], _ => []
  | (k, w) :: rest, key => if k = key then rest else (k, w) :: ledgerRemove rest key

/-- `record_open_position`: unconditionally (re)binds the `(symbol, side)` key
to a fresh entry with the given price, quantity and leverage. -/
def record_open_position (led : Ledger) (symbol side : String)
    (entryPrice quantity leverage : ℚ) : Ledger :=
  ledgerInsert led (posKey symbol side) ⟨symbol, side, entryPrice, quantity, leverage⟩

/-- `close_quantity = open_quantity if quantity is None else
min(open_quantity, max(0.0, quantity))`. -/
def resolvedCloseQty (pos : OpenPos) (quantity : Option ℚ) : ℚ :=
  match quantity with
  | none => pos.quantity
  | some q => min pos.quantity (max 0 q)

/-- `record_close_position`: returns `(trade record or None, updated ledger)`.
No ledger entry, or a non-positive resolved close quantity, records nothing
and leaves the ledger unchanged; otherwise P&L is computed from the ledger
entry, the trade is recorded, and the entry is removed when the remainder is
at most 1e-9 or reduced in place otherwise. -/
def record_close_position (led : Ledger) (symbol side : String) (closePrice : ℚ)
    (quantity : Option ℚ) : Option TradeRec × Ledger :=
  match ledgerLookup led (posKey symbol side) with
  | none => (none, led)
  | some pos =>
    let closeQ := resolvedCloseQty pos quantity
    if closeQ ≤ 0 then (none, led)
    else
      let pnlPct :=
        if side = "long" then (closePrice - pos.entryPrice) / pos.entryPrice * 100
        else (pos.entryPrice - closePrice) / pos.entryPrice * 100
      let pnlUsdt :=
        if side = "long" then (closePrice - pos.entryPrice) * closeQ * pos.leverage
        else (pos.entryPrice - closePrice) * closeQ * pos.leverage
      let trade : TradeRec :=
        ⟨symbol, side, pos.entryPrice, closePrice, closeQ, pos.leverage, pnlPct, pnlUsdt⟩
      let remaining := pos.quantity - closeQ
      let led2 :=
        if remaining ≤ 1/1000000000 then ledgerRemove led (posKey symbol side)
        else ledgerInsert led (posKey symbol side)
          ⟨pos.symbol, pos.side, pos.entryPrice, remaining, pos.leverage⟩
      (some trade, led2)

/-- Run a sequence of closes `(closePrice, quantity?)` against one
`(symbol, side)` pair, collecting the recorded trades. -/
def runCloses (led : Ledger) (symbol side : String) :
    List (ℚ × Option ℚ) → Ledger × List TradeRec
  | [] => (led, [])
  | (cp, q) :: rest =>
    match record_close_position led symbol side cp q with
    | (none, led2) =>
      let r := runCloses led2 symbol side rest
      (r.1, r.2)
    | (some tr, led2) =>
      let r := runCloses led2 symbol side rest
      (r.1, tr :: r.2)

/-- Total quantity carried by a list of trade records. -/
def closedSum (recs : List TradeRec) : ℚ :=
  (recs.map TradeRec.quantity).sum

lemma resolvedCloseQty_le (pos : OpenPos) (q : Option ℚ) :
    resolvedCloseQty pos q ≤ pos.quantity := by
  unfold resolvedCloseQty
  cases q with
  | none => exact le_rfl
  | some x => exact min_le_left _ _

lemma record_close_none_led (led : Ledger) (symbol side : String) (cp : ℚ)
    (q : Option ℚ) (led2 : Ledger)
    (h : record_close_position led symbol side cp q = (none, led2)) : led2 = led := by
  unfold record_close_position at h
  split at h
  · exact (congrArg Prod.snd h).symm
  · dsimp only at h
    split at h
    · exact (congrArg Prod.snd h).symm
    · exact absurd (congrArg Prod.fst h) (by simp)

lemma ledgerLookup_singleton (k : String) (v : OpenPos) :
    ledgerLookup [(k, v)] k = some v := by
  simp [ledgerLookup]

/-- Invariant carried while replaying partial closes against a single opened
`(symbol, side)` entry: the closed total stays within `[0, q0]` and the ledger
either holds the entry with the exact remainder (above the 1e-9 epsilon) or
has dropped it (remainder at most 1e-9). -/
def C4Inv (symbol side : String) (ep q0 lev : ℚ) (led : Ledger) (s : ℚ) : Prop :=
  0 ≤ s ∧ s ≤ q0 ∧
  ((led = [(posKey symbol side, ⟨symbol, side, ep, q0 - s, lev⟩)] ∧ 1/1000000000 < q0 - s)
    ∨ (led = [] ∧ q0 - s ≤ 1/1000000000))

lemma C4Inv_run (symbol side : String) (ep q0 lev : ℚ) :
    ∀ (closes : List (ℚ × Option ℚ)) (led : Ledger) (s : ℚ),
    C4Inv symbol side ep q0 lev led s →
    C4Inv symbol side ep q0 lev (runCloses led symbol side closes).1
      (s + closedSum (runCloses led symbol side closes).2) := by
  intro closes
  induction closes with
  | nil =>
    intro led s hinv
    simpa [runCloses, closedSum] using hinv
  | cons c rest ih =>
    intro led s hinv
    obtain ⟨cp, q⟩ := c
    cases hrc : record_close_position led symbol side cp q with
    | mk res led2 =>
      cases res with
      | none =>
        have hled : led2 = led := record_close_none_led _ _ _ _ _ _ hrc
        simp only [runCloses, hrc]
        have hinv2 : C4Inv symbol side ep q0 lev led2 s := by
          rw [hled]; exact hinv
        exact ih led2 s hinv2
      | some tr =>
        have hrc0 := hrc
        obtain ⟨hs0, hsq, hbranch⟩ := hinv
        rcases hbranch with ⟨hled, hrem⟩ | ⟨hled, hrem⟩
        · subst hled
          have hlook := ledgerLookup_singleton (posKey symbol side)
            (⟨symbol, side, ep, q0 - s, lev⟩ : OpenPos)
          unfold record_close_position at hrc
          rw [hlook] at hrc
          dsimp only at hrc
          split at hrc
          · exact absurd (congrArg Prod.fst hrc) (by simp)
          · next hqpos =>
            rw [Prod.mk.injEq] at hrc
            obtain ⟨htr, hled2⟩ := hrc
            injection htr with htr
            have hqty : tr.quantity = resolvedCloseQty ⟨symbol, side, ep, q0 - s, lev⟩ q := by
              rw [← htr]
            have hclose_pos : 0 < resolvedCloseQty ⟨symbol, side, ep, q0 - s, lev⟩ q :=
              lt_of_not_le hqpos
            have hclose_le : resolvedCloseQty ⟨symbol, side, ep, q0 - s, lev⟩ q ≤ q0 - s :=
              resolvedCloseQty_le _ _
            have hinv2 : C4Inv symbol side ep q0 lev led2 (s + tr.quantity) := by
              refine ⟨by rw [hqty]; positivity, by rw [hqty]; linarith, ?_⟩
              rw [← hled2]
              split
              · next hsmall =>
                refine Or.inr ⟨by simp [ledgerRemove], ?_⟩
                rw [hqty]
                linarith
              · next hbig =>
                refine Or.inl ⟨?_, ?_⟩
                · rw [hqty]
                  simp [ledgerInsert, sub_sub]
                · rw [hqty, ← sub_sub]
                  exact lt_of_not_le hbig
            simp only [runCloses, hrc0, closedSum, List.map_cons, List.sum_cons]
            have := ih led2 (s + tr.quantity) hinv2
            simpa [closedSum, add_assoc] using this
        · subst hled
          unfold record_close_position at hrc
          simp [ledgerLookup] at hrc

lemma ledgerLookup_insert (led : Ledger) (k : String) (v : OpenPos) :
    ledgerLookup (ledgerInsert led k v) k = some v := by
  induction led with
  | nil => simp [ledgerInsert, ledgerLookup]
  | cons hd tl ih =>
    obtain ⟨k2, w⟩ := hd
    by_cases h : k2 = k
    · simp [ledgerInsert, ledgerLookup, h]
    · simp [ledgerInsert, ledgerLookup, h, ih]

/-- Open one `(symbol, side)` entry in an empty ledger and replay a list of
closes against it. -/
def openThenClose (symbol side : String) (ep q0 lev : ℚ)
    (closes : List (ℚ × Option ℚ)) : Ledger × List TradeRec :=
  runCloses (record_open_position [] symbol side ep q0 lev) symbol side closes

/-- Counterexample to Claim C4: opening the same `(symbol, side)` twice with
quantity 1 each leaves a ledger quantity of 1, not the claimed
sum-of-opened-quantities 2 — `record_open_position` overwrites the entry. -/
theorem C4_ledger_consistency_counterexample :
    ledgerLookup (record_open_position (record_open_position [] "BTCUSDT" "long" 100 1 2)
        "BTCUSDT" "long" 100 1 2) (posKey "BTCUSDT" "long")
      = some ⟨"BTCUSDT", "long", 100, 1, 2⟩
    ∧ (1 : ℚ) ≠ 1 + 1 := by
  constructor
  · simp [record_open_position, ledgerInsert, ledgerLookup, posKey]
  · norm_num

/-- Claim C4 (amended): an open overwrites any existing `(symbol, side)`
entry; for one open followed by any sequence of partial closes the ledger
quantity equals the opened quantity minus the sum of recorded closed
quantities and never goes negative, and the entry disappears exactly when the
remainder is at most 1e-9. -/
theorem C4_ledger_consistency (symbol side : String) (ep q0 lev : ℚ)
    (closes : List (ℚ × Option ℚ)) (hq0 : 1/1000000000 < q0) :
    0 ≤ closedSum (openThenClose symbol side ep q0 lev closes).2
    ∧ closedSum (openThenClose symbol side ep q0 lev closes).2 ≤ q0
    ∧ (∀ e, ledgerLookup (openThenClose symbol side ep q0 lev closes).1 (posKey symbol side)
          = some e →
        e.quantity = q0 - closedSum (openThenClose symbol side ep q0 lev closes).2
        ∧ 1/1000000000 < e.quantity)
    ∧ (ledgerLookup (openThenClose symbol side ep q0 lev closes).1 (posKey symbol side)
          = none →
        q0 - closedSum (openThenClose symbol side ep q0 lev closes).2 ≤ 1/1000000000)
    ∧ (∀ led ep2 q2 lev2, ledgerLookup (record_open_position led symbol side ep2 q2 lev2)
        (posKey symbol side) = some ⟨symbol, side, ep2, q2, lev2⟩) := by
  have hopen : record_open_position [] symbol side ep q0 lev
      = [(posKey symbol side, ⟨symbol, side, ep, q0, lev⟩)] := by
    simp [record_open_position, ledgerInsert]
  have h0 : C4Inv symbol side ep q0 lev (record_open_position [] symbol side ep q0 lev) 0 := by
    refine ⟨le_rfl, by linarith, Or.inl ⟨?_, ?_⟩⟩
    · rw [hopen, sub_zero]
    · rw [sub_zero]; exact hq0
  have h := C4Inv_run symbol side ep q0 lev closes _ 0 h0
  rw [zero_add] at h
  obtain ⟨hs0, hsq, hbr⟩ := h
  refine ⟨hs0, hsq, ?_, ?_, ?_⟩
  · intro e he
    rcases hbr with ⟨hled, hrem⟩ | ⟨hled, _⟩
    · rw [openThenClose] at he
      rw [hled, ledgerLookup_singleton] at he
      injection he with he
      rw [← he]
      exact ⟨rfl, hrem⟩
    · rw [openThenClose] at he
      rw [hled] at he
      exact absurd he (by simp [ledgerLookup])
  · intro hn
    rcases hbr with ⟨hled, _⟩ | ⟨_, hrem⟩
    · rw [openThenClose] at hn
      rw [hled, ledgerLookup_singleton] at hn
      exact absurd hn (by simp)
    · exact hrem
  · intro led ep2 q2 lev2
    exact ledgerLookup_insert led (posKey symbol side) _

/-- Witness for the amended C4: open 2.0 of BTCUSDT long and close 1.2 of it;
the recorded closed total is within `[0, 2]`. -/
theorem C4_ledger_consistency_witness :
    0 ≤ closedSum (openThenClose "BTCUSDT" "long" 100 2 3 [(110, some (6/5))]).2
    ∧ closedSum (openThenClose "BTCUSDT" "long" 100 2 3 [(110, some (6/5))]).2 ≤ 2 :=
  ⟨(C4_ledger_consistency "BTCUSDT" "long" 100 2 3 [(110, some (6/5))] (by norm_num)).1,
   (C4_ledger_consistency "BTCUSDT" "long" 100 2 3 [(110, some (6/5))] (by norm_num)).2.1⟩

/-- Claim C6: a recorded close computes `pnlPct` and `pnlUsdt` by the long
formula `(closePrice − entryPrice)` (sign-flipped for short) using the entry
price and leverage stored in the ledger entry being closed, applied to the
closed quantity. -/
theorem C6_pnl_from_ledger (led : Ledger) (symbol side : String) (closePrice : ℚ)
    (quantity : Option ℚ) (pos : OpenPos) (tr : TradeRec) (led2 : Ledger)
    (hlook : ledgerLookup led (posKey symbol side) = some pos)
    (h : record_close_position led symbol side closePrice quantity = (some tr, led2)) :
    tr.entryPrice = pos.entryPrice ∧ tr.leverage = pos.leverage
    ∧ tr.quantity = resolvedCloseQty pos quantity
    ∧ (side = "long" →
        tr.pnlPct = (closePrice - pos.entryPrice) / pos.entryPrice * 100
        ∧ tr.pnlUsdt = (closePrice - pos.entryPrice) * tr.quantity * pos.leverage)
    ∧ (side ≠ "long" →
        tr.pnlPct = (pos.entryPrice - closePrice) / pos.entryPrice * 100
        ∧ tr.pnlUsdt = (pos.entryPrice - closePrice) * tr.quantity * pos.leverage) := by
  unfold record_close_position at h
  rw [hlook] at h
  dsimp only at h
  split at h
  · exact absurd h (by simp)
  · rw [Prod.mk.injEq] at h
    obtain ⟨h1, h2⟩ := h
    injection h1 with h1
    subst h1
    refine ⟨rfl, rfl, rfl, ?_, ?_⟩
    · intro hside
      rw [if_pos hside, if_pos hside]
      exact ⟨rfl, rfl⟩
    · intro hside
      rw [if_neg hside, if_neg hside]
      exact ⟨rfl, rfl⟩

/-- Witness for C6: closing 1.2 of a long opened at 50000 with leverage 3 at
price 51000 yields pnlPct 2 and pnlUsdt 3600, from the ledger entry fields. -/
theorem C6_pnl_from_ledger_witness :
    (⟨"BTCUSDT", "long", 50000, 51000, 6/5, 3, 2, 3600⟩ : TradeRec).pnlPct
        = (51000 - 50000) / 50000 * 100
    ∧ (⟨"BTCUSDT", "long", 50000, 51000, 6/5, 3, 2, 3600⟩ : TradeRec).pnlUsdt
        = (51000 - 50000) * (⟨"BTCUSDT", "long", 50000, 51000, 6/5, 3, 2, 3600⟩ : TradeRec).quantity * 3 := by
  have hlook : ledgerLookup (record_open_position [] "BTCUSDT" "long" 50000 2 3)
      (posKey "BTCUSDT" "long") = some ⟨"BTCUSDT", "long", 50000, 2, 3⟩ := by
    simp [record_open_position, ledgerInsert, ledgerLookup]
  have h : record_close_position (record_open_position [] "BTCUSDT" "long" 50000 2 3)
      "BTCUSDT" "long" 51000 (some (6/5))
      = (some ⟨"BTCUSDT", "long", 50000, 51000, 6/5, 3, 2, 3600⟩,
         [(posKey "BTCUSDT" "long", ⟨"BTCUSDT", "long", 50000, 4/5, 3⟩)]) := by
    norm_num [record_open_position, record_close_position, ledgerInsert, ledgerLookup,
      ledgerRemove, resolvedCloseQty, posKey]
  have hc := C6_pnl_from_ledger _ _ _ _ _ _ _ _ hlook h
  exact (hc.2.2.2.1 rfl)

/-- Claim C10: closing a `(symbol, side)` pair with no ledger entry, or with a
resolved close quantity that is not positive, records no trade and leaves the
ledger unchanged. -/
theorem C10_close_noop (led : Ledger) (symbol side : String) (closePrice : ℚ)
    (quantity : Option ℚ) :
    (ledgerLookup led (posKey symbol side) = none →
      record_close_position led symbol side closePrice quantity = (none, led))
    ∧ (∀ pos, ledgerLookup led (posKey symbol side) = some pos →
      resolvedCloseQty pos quantity ≤ 0 →
      record_close_position led symbol side closePrice quantity = (none, led)) := by
  constructor
  · intro hnone
    unfold record_close_position
    rw [hnone]
  · intro pos hsome hq
    unfold record_close_position
    rw [hsome]
    dsimp only
    rw [if_pos hq]

/-- Witness for C10: closing against an empty ledger records nothing and
leaves the ledger empty. -/
theorem C10_close_noop_witness :
    record_close_position [] "BTCUSDT" "long" 100 none = (none, []) :=
  (C10_close_noop [] "BTCUSDT" "long" 100 none).1 rfl

/-- The optional quantity parameters of a close decision (`close_quantity`
takes precedence over `close_quantity_pct`). -/
structure CloseDecision where
  closeQuantity : Option ℚ
  closeQuantityPct : Option ℚ
deriving DecidableEq

/-- Outcome of `_execute_close` sizing: skip the decision, or issue a close
order (`none` = close the whole position). -/
inductive CloseAction where
  | skip : CloseAction
  | order : Option ℚ → CloseAction
deriving DecidableEq

/-- Close-quantity resolution from `_execute_close`: an explicit
`close_quantity` is used as given; `close_quantity_pct` is ignored when not
positive, divided by 100 when above 1, used as a fraction otherwise, capped at
1, and multiplied by the position amount fetched from the exchange's live
positions. -/
def resolveCloseQuantity (positionAmt : ℚ) (d : CloseDecision) : Option ℚ :=
  match d.closeQuantity with
  | some q => some q
  | none =>
    match d.closeQuantityPct with
    | some pct =>
      if pct ≤ 0 then none
      else some (positionAmt * min (if pct > 1 then pct / 100 else pct) 1)
    | none => none

/-- `_execute_close` final sizing: a resolved quantity is made positive,
clamped to `[0, positionAmt]`, dropped when at most 1e-12; otherwise the
close order carries exactly the clamped quantity. -/
def executeCloseSizing (positionAmt : ℚ) (d : CloseDecision) : CloseAction :=
  match resolveCloseQuantity positionAmt d with
  | none => CloseAction.order none
  | some q0 =>
    let q := min positionAmt (max 0 |q0|)
    if q ≤ 1/1000000000000 then CloseAction.skip
    else CloseAction.order (some q)

/-- Claim C5 (amended): a `closeQuantityPct` above 1 is divided by 100 and a
value at most 1 is used as a fraction directly; the fraction is multiplied by
the position amount reported by the exchange's live positions (not the
ledger quantity) and clamped to `[0, positionAmt]`; a resolved quantity at
most 1e-12 skips the close, otherwise the order carries exactly the resolved
quantity — with pct 60 on a live amount of 2.0 the order closes 1.2 and the
ledger remainder is 0.8. -/
theorem C5_close_sizing (amt pct : ℚ) (h0 : 0 ≤ amt) (hp : 0 < pct) (hub : pct ≤ 100) :
    (1 < pct → 1/1000000000000 < amt * (pct/100) →
      executeCloseSizing amt ⟨none, some pct⟩ = CloseAction.order (some (amt * (pct/100))))
    ∧ (pct ≤ 1 → 1/1000000000000 < amt * pct →
      executeCloseSizing amt ⟨none, some pct⟩ = CloseAction.order (some (amt * pct)))
    ∧ (∀ q0, resolveCloseQuantity amt ⟨none, some pct⟩ = some q0 →
        min amt (max 0 |q0|) ≤ 1/1000000000000 →
        executeCloseSizing amt ⟨none, some pct⟩ = CloseAction.skip)
    ∧ executeCloseSizing 2 ⟨none, some 60⟩ = CloseAction.order (some (6/5))
    ∧ (record_close_position (record_open_position [] "BTCUSDT" "long" 50000 2 3)
        "BTCUSDT" "long" 51000 (some (6/5))).2
      = [(posKey "BTCUSDT" "long", ⟨"BTCUSDT", "long", 50000, 4/5, 3⟩)] := by
  refine ⟨?_, ?_, ?_, ?_, ?_⟩
  · intro h1 h2
    simp only [executeCloseSizing, resolveCloseQuantity]
    rw [if_neg (not_le.mpr hp), if_pos h1]
    have hple : pct / 100 ≤ 1 := by linarith
    have hq0 : 0 ≤ amt * (pct / 100) := by positivity
    have hle : amt * (pct / 100) ≤ amt := by
      calc amt * (pct / 100) ≤ amt * 1 := by
            exact mul_le_mul_of_nonneg_left hple h0
        _ = amt := mul_one amt
    rw [min_eq_left hple]
    dsimp only
    rw [abs_of_nonneg hq0, max_eq_right hq0, min_eq_right hle, if_neg (not_le.mpr h2)]
  · intro h1 h2
    simp only [executeCloseSizing, resolveCloseQuantity]
    rw [if_neg (not_le.mpr hp), if_neg (not_lt.mpr h1)]
    have hq0 : 0 ≤ amt * pct := by positivity
    have hle : amt * pct ≤ amt := by
      calc amt * pct ≤ amt * 1 := mul_le_mul_of_nonneg_left h1 h0
        _ = amt := mul_one amt
    rw [min_eq_left h1]
    dsimp only
    rw [abs_of_nonneg hq0, max_eq_right hq0, min_eq_right hle, if_neg (not_le.mpr h2)]
  · intro q0 hres hsmall
    simp only [executeCloseSizing, hres]
    rw [if_pos hsmall]
  · have habs : |(6/5 : ℚ)| = 6/5 := abs_of_nonneg (by norm_num)
    norm_num [executeCloseSizing, resolveCloseQuantity, habs]
  · norm_num [record_open_position, record_close_position, ledgerInsert, ledgerLookup,
      ledgerRemove, resolvedCloseQty, posKey]

/-- Witness for the amended C5 at Scenario C: pct 60 on a position amount of
2.0 issues a close order for 1.2. -/
theorem C5_close_sizing_witness :
    executeCloseSizing 2 ⟨none, some 60⟩ = CloseAction.order (some (6/5)) :=
  (C5_close_sizing 2 60 (by norm_num) (by norm_num) (by norm_num)).2.2.2.1

/-- Counterexample to Claim C5: with a ledger quantity of 2 but a live
exchange position amount of 4, a 60% close issues an order for 2.4, not the
ledger-based 1.2 — the resolution multiplies the live amount, not the ledger
quantity. -/
theorem C5_close_sizing_counterexample :
    ledgerLookup (record_open_position [] "BTCUSDT" "long" 100 2 1) (posKey "BTCUSDT" "long")
      = some ⟨"BTCUSDT", "long", 100, 2, 1⟩
    ∧ executeCloseSizing 4 ⟨none, some 60⟩ = CloseAction.order (some (12/5))
    ∧ (12/5 : ℚ) ≠ 60/100 * 2 := by
  have habs : |(12/5 : ℚ)| = 12/5 := abs_of_nonneg (by norm_num)
  refine ⟨by simp [record_open_position, ledgerInsert, ledgerLookup], ?_, by norm_num⟩
  norm_num [executeCloseSizing, resolveCloseQuantity, habs]

/-- Reconciler state carried across cycles by `DecisionLogger`:
`_net_deposits`, `_last_equity`, `_last_unrealized`,
`_last_logged_trade_index`. -/
structure ReconcilerState where
  netDeposits : ℚ
  lastEquity : Option ℚ
  lastUnrealized : Option ℚ
  lastLoggedTradeIndex : ℕ
deriving DecidableEq

/-- The equity fields emitted with each cycle's equity entry. -/
structure EquityEmit where
  grossEquity : ℚ
  adjustedEquity : ℚ
  unrealizedPnl : ℚ
  netDeposits : ℚ
  externalCashFlow : ℚ
deriving DecidableEq

/-- `get_trade_history(limit=100)`: the most recent 100 trade records in
chronological order (`trades[-100:]`); the history is represented by its list
of `pnl_usdt` values. -/
def recentTradesOf (history : List ℚ) : List ℚ :=
  history.drop (history.length - 100)

/-- `realized_change = sum(t["pnl_usdt"] for t in recent_trades[last_index:])`. -/
def realizedChangeOf (st : ReconcilerState) (history : List ℚ) : ℚ :=
  ((recentTradesOf history).drop st.lastLoggedTradeIndex).sum

/-- The reconciliation step of `log_decision`: realized change from new trade
records, external cash flow as the unexplained equity residual (snapped to 0
below 1e-6), accumulation into net deposits, and the adjusted-equity output;
returns the updated state and the emitted equity fields. -/
def log_decision (st : ReconcilerState) (history : List ℚ)
    (currentEquity currentUnrealized : ℚ) : ReconcilerState × EquityEmit :=
  let recent := recentTradesOf history
  let realizedChange := (recent.drop st.lastLoggedTradeIndex).sum
  let ecf : ℚ :=
    match st.lastEquity with
    | none => 0
    | some lastEq =>
      let raw := (currentEquity - lastEq) - realizedChange
        - (currentUnrealized - st.lastUnrealized.getD 0)
      if |raw| < 1/1000000 then 0 else raw
  let nd := if ecf ≠ 0 then st.netDeposits + ecf else st.netDeposits
  (⟨nd, some currentEquity, some currentUnrealized, recent.length⟩,
   ⟨currentEquity, currentEquity - nd, currentUnrealized, nd, ecf⟩)

/-- The raw (pre-snap) external cash flow residual of a cycle. -/
def rawCashFlow (st : ReconcilerState) (history : List ℚ) (geq unr lastEq : ℚ) : ℚ :=
  (geq - lastEq) - realizedChangeOf st history - (unr - st.lastUnrealized.getD 0)

/-- Claim C3 (amended): each non-first cycle adds the emitted external cash
flow to net deposits and emits `adjustedEquity = grossEquity − netDeposits`;
a raw residual below 1e-6 in absolute value is snapped to exactly 0; the
reconciliation identity `grossEquity(t) − grossEquity(t−1) = realizedChange +
unrealizedDelta + externalCashFlow` holds for the emitted values on every
cycle whose raw residual is zero or at least 1e-6 in absolute value; and with
at most 100 stored trade records the realized change is the sum of `pnlUsdt`
over records created since `lastLoggedTradeIndex`. -/
theorem C3_reconciliation (st : ReconcilerState) (history : List ℚ) (geq unr lastEq : ℚ)
    (hlast : st.lastEquity = some lastEq) :
    (log_decision st history geq unr).1.netDeposits
        = st.netDeposits + (log_decision st history geq unr).2.externalCashFlow
    ∧ (log_decision st history geq unr).2.adjustedEquity
        = geq - (log_decision st history geq unr).1.netDeposits
    ∧ (|rawCashFlow st history geq unr lastEq| < 1/1000000 →
        (log_decision st history geq unr).2.externalCashFlow = 0)
    ∧ (rawCashFlow st history geq unr lastEq = 0
        ∨ 1/1000000 ≤ |rawCashFlow st history geq unr lastEq| →
        geq - lastEq = realizedChangeOf st history
          + (unr - st.lastUnrealized.getD 0)
          + (log_decision st history geq unr).2.externalCashFlow)
    ∧ (history.length ≤ 100 →
        realizedChangeOf st history = (history.drop st.lastLoggedTradeIndex).sum) := by
  have hrec : realizedChangeOf st history
      = ((recentTradesOf history).drop st.lastLoggedTradeIndex).sum := rfl
  simp only [log_decision, hlast, rawCashFlow, realizedChangeOf]
  by_cases hsnap : |(geq - lastEq) - ((recentTradesOf history).drop st.lastLoggedTradeIndex).sum
      - (unr - st.lastUnrealized.getD 0)| < 1/1000000
  · rw [if_pos hsnap]
    simp only [ne_eq, not_true_eq_false, if_false, not_false_eq_true]
    refine ⟨by ring, trivial, fun _ => trivial, ?_, ?_⟩
    · intro hor
      rcases hor with hz | hge
      · linarith [hz]
      · exact absurd hsnap (not_lt.mpr hge)
    · intro hlen
      unfold recentTradesOf
      rw [Nat.sub_eq_zero_of_le hlen, List.drop_zero]
  · rw [if_neg hsnap]
    by_cases hz : (geq - lastEq) - ((recentTradesOf history).drop st.lastLoggedTradeIndex).sum
        - (unr - st.lastUnrealized.getD 0) = 0
    · rw [if_neg (by simpa using hz)]
      refine ⟨by rw [hz]; ring, trivial, fun hc => absurd hc hsnap, ?_, ?_⟩
      · intro _
        rw [hz]
        linarith [hz]
      · intro hlen
        unfold recentTradesOf
        rw [Nat.sub_eq_zero_of_le hlen, List.drop_zero]
    · rw [if_pos (by simpa using hz)]
      refine ⟨rfl, trivial, fun hc => absurd hc hsnap, ?_, ?_⟩
      · intro _
        ring
      · intro hlen
        unfold recentTradesOf
        rw [Nat.sub_eq_zero_of_le hlen, List.drop_zero]

/-- Counterexample to Claim C3: a raw residual of 1e-7 is snapped to an
emitted external cash flow of 0, after which the emitted values violate the
claimed identity by exactly 1e-7. -/
theorem C3_reconciliation_counterexample :
    (log_decision ⟨0, some 100, some 0, 0⟩ [] (100 + 1/10000000) 0).2.externalCashFlow = 0
    ∧ ¬ ((100 + 1/10000000 : ℚ) - 100
        = realizedChangeOf ⟨0, some 100, some 0, 0⟩ []
          + ((0 : ℚ) - (some (0 : ℚ)).getD 0)
          + (log_decision ⟨0, some 100, some 0, 0⟩ [] (100 + 1/10000000) 0).2.externalCashFlow) := by
  have h1 : (log_decision ⟨0, some 100, some 0, 0⟩ [] (100 + 1/10000000) 0).2.externalCashFlow
      = 0 := by
    simp only [log_decision, recentTradesOf]
    norm_num
    rw [abs_of_nonneg (by norm_num)]
    norm_num
  refine ⟨h1, ?_⟩
  rw [h1]
  norm_num [realizedChangeOf, recentTradesOf]

/-- Witness for the amended C3: a 50 USD unexplained equity jump (above the
snap threshold) satisfies the reconciliation identity with external cash flow
50. -/
theorem C3_reconciliation_witness :
    (150 : ℚ) - 100 = realizedChangeOf ⟨0, some 100, some 0, 0⟩ []
      + ((0 : ℚ) - (⟨0, some 100, some 0, 0⟩ : ReconcilerState).lastUnrealized.getD 0)
      + (log_decision ⟨0, some 100, some 0, 0⟩ [] 150 0).2.externalCashFlow :=
  (C3_reconciliation ⟨0, some 100, some 0, 0⟩ [] 150 0 100 rfl).2.2.2.1 (Or.inr (by
    have h : rawCashFlow ⟨0, some 100, some 0, 0⟩ [] 150 0 100 = 50 := by
      norm_num [rawCashFlow, realizedChangeOf, recentTradesOf]
    rw [h, abs_of_nonneg (by norm_num)]
    norm_num))

/-- The phases of one `trading_cycle`, in source order (market-data fetch and
indicator computation happen inside `_fetch_market_data`). -/
inductive CyclePhase where
  | cancelStaleOrders : CyclePhase
  | fetchAccount : CyclePhase
  | fetchPositions : CyclePhase
  | fetchMarketData : CyclePhase
  | computeIndicators : CyclePhase
  | fetchPerformance : CyclePhase
  | buildPrompts : CyclePhase
  | callDecision : CyclePhase
  | parseDecisions : CyclePhase
  | executeDecisions : CyclePhase
  | logDecisionPhase : CyclePhase
deriving DecidableEq

/-- `async with execution_service.guard(...)`: every phase of the body runs
with the gate slot held. -/
def guardedSection (body : List CyclePhase) : List (CyclePhase × Bool) :=
  body.map (fun p => (p, true))

/-- The trace of `trading_cycle`: the whole body — stale-order cleanup,
account and position fetch, market-data fetch, indicator computation, prompt
building, the decision call, decision parsing and execution, and logging — is
nested inside the `guard` context manager. -/
def tradingCycleTrace : List (CyclePhase × Bool) :=
  guardedSection [CyclePhase.cancelStaleOrders, CyclePhase.fetchAccount,
    CyclePhase.fetchPositions, CyclePhase.fetchMarketData, CyclePhase.computeIndicators,
    CyclePhase.fetchPerformance, CyclePhase.buildPrompts, CyclePhase.callDecision,
    CyclePhase.parseDecisions, CyclePhase.executeDecisions, CyclePhase.logDecisionPhase]

/-- Counterexample to Claim C7: the market-data fetch runs while the gate
slot is held, so the claim that it is never performed under the gate fails. -/
theorem C7_gating_counterexample :
    (CyclePhase.fetchMarketData, true) ∈ tradingCycleTrace
    ∧ ¬ (∀ p ∈ tradingCycleTrace,
        (p.1 = CyclePhase.fetchMarketData ∨ p.1 = CyclePhase.computeIndicators) →
        p.2 = false) := by
  constructor
  · decide
  · decide

/-- Claim C7 (amended): every phase of the trading cycle — including
market-data fetching and indicator computation — executes while holding the
ExecutionGate slot. -/
theorem C7_gating (p : CyclePhase × Bool) (hp : p ∈ tradingCycleTrace) : p.2 = true := by
  simp only [tradingCycleTrace, guardedSection, List.mem_map] at hp
  obtain ⟨a, ha, rfl⟩ := hp
  rfl

/-- Witness for the amended C7: the market-data fetch phase holds the gate. -/
theorem C7_gating_witness :
    ((CyclePhase.fetchMarketData, true) : CyclePhase × Bool).2 = true :=
  C7_gating (CyclePhase.fetchMarketData, true) (by decide)

/-- `TradeExecutionService.__init__` configuration. -/
structure TradeExecutionService where
  maxConcurrentTrades : ℕ
  timeoutSeconds : ℚ
deriving DecidableEq

/-- Constructor defaults: `max_concurrent_trades=1`, `timeout_seconds=300.0`. -/
def TradeExecutionService.mkDefault : TradeExecutionService :=
  ⟨1, 300⟩

/-- The acquire step of `guard`: `asyncio.wait_for(semaphore.acquire(), timeout)`
abstracted over whether a slot frees up before the timeout; on timeout the
wrapped `RuntimeError` is raised. -/
def guardAcquire (slotFreeBeforeTimeout : Bool) : Except String Unit :=
  if slotFreeBeforeTimeout then Except.ok ()
  else Except.error "Timed out waiting for trade execution slot"

/-- `AgentWorker` flags: the trigger event and the stop event. -/
structure WorkerState where
  triggerSet : Bool
  stopSet : Bool
deriving DecidableEq

/-- Result of one `trading_cycle` call: normal return or a raised exception. -/
inductive CycleOutcome where
  | success : CycleOutcome
  | failure : String → CycleOutcome
deriving DecidableEq

/-- One wakeup of `AgentWorker._run`: if stop is set the loop exits with no
cycle attempt; otherwise the trigger is cleared and exactly one cycle is
attempted whose exception, if any, is caught and logged — the outcome does
not influence the control flow.  Returns (loop exited, cycle attempts, state
when the loop goes back to waiting). -/
def workerIteration (st : WorkerState) (outcome : CycleOutcome) : Bool × ℕ × WorkerState :=
  if st.stopSet then (true, 0, st)
  else (false, 1, ⟨false, st.stopSet⟩)

/-- Claim C8: the gate uses a 300 s default timeout and surfaces a timeout as
an error; a worker whose cycle fails (e.g. with that error) makes exactly one
cycle attempt, returns to the idle waiting state, and behaves identically to
a successful cycle — the acquire is never retried inline. -/
theorem C8_timeout_skip_cycle (st : WorkerState) (msg : String) (h : st.stopSet = false) :
    TradeExecutionService.mkDefault.timeoutSeconds = 300
    ∧ guardAcquire false = Except.error "Timed out waiting for trade execution slot"
    ∧ workerIteration st (CycleOutcome.failure msg) = (false, 1, ⟨false, false⟩)
    ∧ workerIteration st (CycleOutcome.failure msg) = workerIteration st CycleOutcome.success := by
  refine ⟨rfl, rfl, ?_, rfl⟩
  unfold workerIteration
  rw [h]
  simp [h]

/-- Witness for C8: a triggered, non-stopped worker whose cycle raises
returns to idle after exactly one attempt. -/
theorem C8_timeout_skip_cycle_witness :
    workerIteration ⟨true, false⟩ (CycleOutcome.failure "timeout") = (false, 1, ⟨false, false⟩) :=
  (C8_timeout_skip_cycle ⟨true, false⟩ "timeout" rfl).2.2.1

/-- A guarded-section boundary event: a caller enters (acquires a slot) or
leaves (releases it in the `finally` block). -/
inductive GateEvent where
  | enter : GateEvent
  | leave : GateEvent
deriving DecidableEq

/-- Counting-semaphore semantics of the gate: state is (free slots, callers
inside); `enter` needs a free slot, `leave` needs a caller inside. -/
def gateStep : ℕ × ℕ → GateEvent → Option (ℕ × ℕ)
  | (s + 1, i), GateEvent.enter => some (s, i + 1)
  | (0, _), GateEvent.enter => none
  | (s, i + 1), GateEvent.leave => some (s + 1, i)
  | (_, 0), GateEvent.leave => none

/-- Replay a trace of guard boundary events starting from `capacity` free
slots and nobody inside. -/
def gateRunTrace (capacity : ℕ) (events : List GateEvent) : Option (ℕ × ℕ) :=
  events.foldlM gateStep (capacity, 0)

/-- The guarded body: the cycle may raise. -/
def guardBody (bodyFails : Bool) : Except String Unit :=
  if bodyFails then Except.error "cycle failed" else Except.ok ()

/-- Net semaphore effect of one complete `guard` call when a slot is free:
acquire takes the slot, and the `finally` block releases it whether the body
returned or raised, so the counter is restored. -/
def guardRun (sem : ℕ) (bodyFails : Bool) : Option (ℕ × Except String Unit) :=
  match sem with
  | 0 => none
  | s + 1 => some (s + 1, guardBody bodyFails)

lemma gateStep_inv (cap : ℕ) (st st2 : ℕ × ℕ) (e : GateEvent)
    (h : gateStep st e = some st2) (hsum : st.1 + st.2 = cap) :
    st2.1 + st2.2 = cap := by
  obtain ⟨s, i⟩ := st
  obtain ⟨s2, i2⟩ := st2
  cases e with
  | enter =>
    cases s with
    | zero => exact absurd h (by simp [gateStep])
    | succ s3 =>
      simp only [gateStep, Option.some.injEq, Prod.mk.injEq] at h
      obtain ⟨h1, h2⟩ := h
      omega
  | leave =>
    cases i with
    | zero => exact absurd h (by simp [gateStep])
    | succ i3 =>
      simp only [gateStep, Option.some.injEq, Prod.mk.injEq] at h
      obtain ⟨h1, h2⟩ := h
      omega

lemma gateRun_inv (cap : ℕ) :
    ∀ (events : List GateEvent) (st st2 : ℕ × ℕ),
    List.foldlM gateStep st events = some st2 → st.1 + st.2 = cap →
    st2.1 + st2.2 = cap := by
  intro events
  induction events with
  | nil =>
    intro st st2 h hsum
    simp only [List.foldlM] at h
    injection h with h
    exact h ▸ hsum
  | cons e rest ih =>
    intro st st2 h hsum
    simp only [List.foldlM] at h
    cases hstep : gateStep st e with
    | none => rw [hstep] at h; exact absurd h (by simp)
    | some st1 =>
      rw [hstep] at h
      exact ih st1 st2 h (gateStep_inv cap st st1 e hstep hsum)

/-- Claim C9: along any trace of guard entries and exits the semaphore count
plus the number of callers inside is conserved, so at most
`max_concurrent_trades` (default 1) callers are ever inside guarded sections;
and one full guard call restores the counter whether the body succeeds or
raises. -/
theorem C9_gate_release_invariant (events : List GateEvent) (st : ℕ × ℕ)
    (h : gateRunTrace TradeExecutionService.mkDefault.maxConcurrentTrades events = some st) :
    st.2 ≤ TradeExecutionService.mkDefault.maxConcurrentTrades
    ∧ st.1 + st.2 = TradeExecutionService.mkDefault.maxConcurrentTrades
    ∧ (∀ sem fails sem2 r, guardRun sem fails = some (sem2, r) → sem2 = sem)
    ∧ (∀ sem, 0 < sem → guardRun sem true = some (sem, Except.error "cycle failed")
        ∧ guardRun sem false = some (sem, Except.ok ())) := by
  have hsum : st.1 + st.2 = TradeExecutionService.mkDefault.maxConcurrentTrades :=
    gateRun_inv _ events _ st h rfl
  refine ⟨by omega, hsum, ?_, ?_⟩
  · intro sem fails sem2 r hg
    cases sem with
    | zero => exact absurd hg (by simp [guardRun])
    | succ s =>
      simp only [guardRun, Option.some.injEq, Prod.mk.injEq] at hg
      exact hg.1.symm
  · intro sem hpos
    cases sem with
    | zero => exact absurd hpos (by omega)
    | succ s => exact ⟨rfl, rfl⟩

/-- Witness for C9: after one caller enters the default-capacity gate, one
caller is inside — within the capacity bound of 1. -/
theorem C9_gate_release_invariant_witness :
    gateRunTrace TradeExecutionService.mkDefault.maxConcurrentTrades [GateEvent.enter]
      = some (0, 1)
    ∧ ((0, 1) : ℕ × ℕ).2 ≤ TradeExecutionService.mkDefault.maxConcurrentTrades :=
  ⟨by decide, (C9_gate_release_invariant [GateEvent.enter] (0, 1) (by decide)).1⟩
